import Mathlib

/-!
Verification of the Elasticsearch embeddings-cache core
(`elasticsearch_manager.py`, `src/elasticsearch_helpers.py`).

The backend (Elasticsearch) is modelled as pure data: an index is the list
of stored records it holds, a scroll enumeration over a snapshot is the
cursor loop `search / scroll / clear_scroll` that all bulk reads share, and
connection / index-existence / scan failures are explicit boolean inputs.
The MD5 hex digest `hashlib.md5(text.encode()).hexdigest()` is kept
abstract: every operation takes the digest function `H : String → String`
as a parameter, since no claim depends on the internals of MD5 itself.
Vector components are modelled as rationals (`ℚ`): the claims about
vectors concern only exact zero-ness of the Euclidean norm.
-/

/-- One stored document row of the `documents_dataset` index
(`doc_id`, `text`, `category`, `target`), as fetched by
`load_all_documents_from_elasticsearch`. -/
structure DocRow where
  doc_id : String
  text : String
  category : String
  target : Int
deriving DecidableEq

/-- One stored record of an embeddings index: `doc_id`, the dense vector,
and the flattened `metadata` object
(`model_type`, `model_version`, `generated_at`, `dimensions`, `text_hash`)
written by `save_embeddings`. -/
structure EmbDoc where
  doc_id : String
  embedding : List ℚ
  model_type : String
  model_version : String
  generated_at : String
  dimensions : Nat
  text_hash : String
deriving DecidableEq

/-- Squared Euclidean norm of a vector; `np.linalg.norm(v) == 0` in the
source is equivalent to `normSq v = 0` over exact arithmetic. -/
def normSq (v : List ℚ) : ℚ :=
  (v.map (fun x => x * x)).sum

/-- The Scroll-API cursor loop shared by
`load_all_documents_from_elasticsearch`, `check_embeddings_exist`,
`validate_embeddings_integrity` and `load_embeddings`:
open a snapshot with `size = batchSize` (first batch), then repeatedly
`scroll` for the next batch while the previous batch was non-empty,
concatenating batches in arrival order.  The server side is modelled
exactly: the snapshot is a fixed list, each fetch returns the next
`batchSize` records of it. -/
def scrollScan {α : Type} (batchSize : Nat) (snapshot : List α) : List α :=
  if h : (snapshot.take batchSize).isEmpty then []
  else snapshot.take batchSize ++ scrollScan batchSize (snapshot.drop batchSize)
termination_by snapshot.length
decreasing_by
  have h1 : snapshot ≠ [] := by
    intro he
    subst he
    simp at h
  have h2 : 0 < batchSize := by
    rcases Nat.eq_zero_or_pos batchSize with h0 | h0
    · rw [h0] at h
      simp at h
    · exact h0
  have h3 : 0 < snapshot.length := List.length_pos.mpr h1
  simp only [List.length_drop]
  omega

theorem scrollScan_nil {α : Type} (batchSize : Nat) :
    scrollScan batchSize ([] : List α) = [] := by
  rw [scrollScan]
  simp

theorem scrollScan_eq_self {α : Type} (batchSize : Nat) (hbs : 0 < batchSize)
    (snapshot : List α) : scrollScan batchSize snapshot = snapshot := by
  have key : ∀ (n : Nat) (l : List α), l.length ≤ n →
      scrollScan batchSize l = l := by
    intro n
    induction n with
    | zero =>
      intro l hl
      have : l = [] := List.eq_nil_of_length_eq_zero (Nat.le_zero.mp hl)
      rw [this]
      exact scrollScan_nil batchSize
    | succ n ih =>
      intro l hl
      rw [scrollScan]
      by_cases hemp : (l.take batchSize).isEmpty
      · simp only [hemp]
        have : l.take batchSize = [] := List.isEmpty_iff.mp hemp
        rcases (List.take_eq_nil_iff).mp this with h0 | h0
        · omega
        · simp [h0]
      · simp only [hemp]
        simp only [Bool.false_eq_true, if_false]
        have hdrop : (l.drop batchSize).length ≤ n := by
          have : l ≠ [] := by
            intro he
            rw [he] at hemp
            simp at hemp
          have hlen : 0 < l.length := List.length_pos.mpr this
          simp only [List.length_drop]
          omega
        rw [ih (l.drop batchSize) hdrop]
        exact List.take_append_drop batchSize l
  exact key snapshot.length snapshot (Nat.le_refl _)

/-- The document loader `load_all_documents_from_elasticsearch`: scroll the
whole index snapshot in batches, convert the hits to a DataFrame and sort
it by `doc_id` (`df.sort_values('doc_id')`).  A `pd.DataFrame` built from
an empty row list has no columns, so when the scroll yielded nothing the
sort raises `KeyError: 'doc_id'`, which the function's `except` block
re-raises after attempting scroll cleanup; a non-empty result is returned
sorted by `doc_id`. -/
def load_all_documents_from_elasticsearch
    (snapshot : List DocRow) (batch_size : Nat) :
    Except String (List DocRow) :=
  let all_documents := scrollScan batch_size snapshot
  if all_documents.isEmpty then Except.error "KeyError: doc_id"
  else Except.ok (all_documents.mergeSort (fun a b => a.doc_id ≤ b.doc_id))

/-- The ids yielded by the filtered scroll enumeration inside
`check_embeddings_exist`: the `terms doc_id` query restricts the snapshot
to records whose `doc_id` is among the requested ids, the scan runs with
`size=1000`, and each hit contributes its `_source.doc_id`. -/
def scanYield (store : List EmbDoc) (doc_ids : List String) : List String :=
  (scrollScan 1000 (store.filter (fun d => doc_ids.contains d.doc_id))).map
    (fun d => d.doc_id)

/-- `check_embeddings_exist`: returns `(all_exist, existing_ids, missing_ids)`.
Not connected, missing index, or any error during the scroll
(`except` branches) all return `(False, [], doc_ids)`; otherwise the ids
actually yielded by the scroll are `existing_ids` and
`missing_ids` filters the request to ids not observed. -/
def check_embeddings_exist (connected indexExists scanFails : Bool)
    (store : List EmbDoc) (doc_ids : List String) :
    Bool × List String × List String :=
  if !connected then (false, [], doc_ids)
  else if !indexExists then (false, [], doc_ids)
  else if scanFails then (false, [], doc_ids)
  else
    let existing_ids := scanYield store doc_ids
    let missing_ids := doc_ids.filter (fun i => !existing_ids.contains i)
    (missing_ids.isEmpty, existing_ids, missing_ids)

theorem contains_true_iff {l : List String} {x : String} :
    l.contains x = true ↔ x ∈ l :=
  List.elem_iff

theorem mem_scanYield (store : List EmbDoc) (doc_ids : List String)
    (x : String) :
    x ∈ scanYield store doc_ids ↔
      x ∈ doc_ids ∧ ∃ d ∈ store, d.doc_id = x := by
  unfold scanYield
  rw [scrollScan_eq_self 1000 (by norm_num)]
  simp only [List.mem_map, List.mem_filter, contains_true_iff]
  constructor
  · rintro ⟨d, ⟨hd, hmem⟩, hx⟩
    exact ⟨hx ▸ hmem, d, hd, hx⟩
  · rintro ⟨hx, d, hd, hdx⟩
    exact ⟨d, ⟨hd, hdx ▸ hx⟩, hdx⟩

/-- C1: the Cursor Scanner enumeration (first batch of `batchSize`, then
successive batches by continuation until an empty batch) concatenates, in
one pass, exactly the records of the snapshot — for every snapshot,
whatever its size relative to the backend's result window, with no
duplicates and no omissions. -/
theorem scroll_scan_complete {α : Type} (snapshot : List α) (batchSize : Nat)
    (hbs : 0 < batchSize) :
    scrollScan batchSize snapshot = snapshot :=
  scrollScan_eq_self batchSize hbs snapshot

theorem scroll_scan_complete_witness :
    0 < 1000 ∧
      scrollScan 1000 (List.range 18211) = List.range 18211 ∧
      (List.range 18211).length = 18211 :=
  ⟨by norm_num, scroll_scan_complete (List.range 18211) 1000 (by norm_num),
    by simp⟩

/-- C2: for every collection state and requested id list, the
`(present, missing)` pair of `check_embeddings_exist` covers the request
exactly (union is the request, intersection empty), and `missing` is
exactly the set of requested ids the scroll enumeration did not yield. -/
theorem check_embeddings_exist_partition (store : List EmbDoc)
    (doc_ids : List String) :
    (∀ x, (x ∈ (check_embeddings_exist true true false store doc_ids).2.1 ∨
           x ∈ (check_embeddings_exist true true false store doc_ids).2.2) ↔
          x ∈ doc_ids) ∧
    (∀ x, ¬(x ∈ (check_embeddings_exist true true false store doc_ids).2.1 ∧
            x ∈ (check_embeddings_exist true true false store doc_ids).2.2)) ∧
    (∀ x, x ∈ (check_embeddings_exist true true false store doc_ids).2.2 ↔
          (x ∈ doc_ids ∧ x ∉ scanYield store doc_ids)) := by
  simp only [check_embeddings_exist, Bool.not_true, Bool.false_eq_true,
    if_false, if_true]
  refine ⟨?_, ?_, ?_⟩
  · intro x
    constructor
    · rintro (hx | hx)
      · exact ((mem_scanYield store doc_ids x).mp hx).1
      · exact (List.mem_filter.mp hx).1
    · intro hx
      by_cases hy : x ∈ scanYield store doc_ids
      · exact Or.inl hy
      · refine Or.inr (List.mem_filter.mpr ⟨hx, ?_⟩)
        simp [contains_true_iff, hy]
  · intro x ⟨h1, h2⟩
    have := (List.mem_filter.mp h2).2
    simp [contains_true_iff] at this
    exact this h1
  · intro x
    constructor
    · intro hx
      have h1 := (List.mem_filter.mp hx).1
      have h2 := (List.mem_filter.mp hx).2
      simp [contains_true_iff] at h2
      exact ⟨h1, h2⟩
    · rintro ⟨h1, h2⟩
      refine List.mem_filter.mpr ⟨h1, ?_⟩
      simp [contains_true_iff, h2]

/-- C6: zero matching records is an error in the document loader, against
the spec's stated edge case.  The scroll loop itself terminates normally
with no hits, but converting the empty hit list to a DataFrame produces a
column-less frame, so `df.sort_values('doc_id')` raises
`KeyError: 'doc_id'` and the call re-raises it — while
`check_embeddings_exist` handles the same zero-match state normally,
returning an empty present list and the whole request as missing. -/
theorem empty_scan_keyerror (batch_size : Nat) (store : List EmbDoc)
    (doc_ids : List String)
    (hmatch : store.filter (fun d => doc_ids.contains d.doc_id) = []) :
    load_all_documents_from_elasticsearch [] batch_size =
        Except.error "KeyError: doc_id" ∧
      check_embeddings_exist true true false store doc_ids =
        (doc_ids.isEmpty, [], doc_ids) := by
  constructor
  · unfold load_all_documents_from_elasticsearch
    rw [scrollScan_nil]
    simp
  · simp only [check_embeddings_exist, Bool.not_true, Bool.false_eq_true,
      if_false, if_true]
    have hyield : scanYield store doc_ids = [] := by
      unfold scanYield
      rw [hmatch, scrollScan_nil]
      simp
    rw [hyield]
    simp [List.filter_eq_self]

theorem empty_scan_keyerror_witness :
    ([] : List EmbDoc).filter
        (fun d => ["doc_0000"].contains d.doc_id) = [] ∧
      (load_all_documents_from_elasticsearch [] 1000 =
          Except.error "KeyError: doc_id" ∧
        check_embeddings_exist true true false [] ["doc_0000"] =
          (["doc_0000"].isEmpty, [], ["doc_0000"])) :=
  ⟨rfl, empty_scan_keyerror 1000 [] ["doc_0000"] rfl⟩

/-- C10: whenever the existence check cannot complete (not connected, index
absent, or an error during the scroll), `check_embeddings_exist` returns
`(False, [], doc_ids)`: all-exist false, empty present list, every
requested id classified missing. -/
theorem check_embeddings_exist_failsafe (connected indexExists scanFails : Bool)
    (store : List EmbDoc) (doc_ids : List String)
    (h : connected = false ∨ indexExists = false ∨ scanFails = true) :
    check_embeddings_exist connected indexExists scanFails store doc_ids =
      (false, [], doc_ids) := by
  unfold check_embeddings_exist
  rcases h with h | h | h
  · simp [h]
  · rcases Bool.eq_false_or_eq_true connected with hc | hc <;> simp [h, hc]
  · rcases Bool.eq_false_or_eq_true connected with hc | hc <;>
      rcases Bool.eq_false_or_eq_true indexExists with hi | hi <;>
        simp [h, hc, hi]

theorem check_embeddings_exist_failsafe_witness :
    ((false : Bool) = false ∨ (true : Bool) = false ∨ (false : Bool) = true) ∧
      check_embeddings_exist false true false [] ["doc_0000"] =
        (false, [], ["doc_0000"]) :=
  ⟨Or.inl rfl,
    check_embeddings_exist_failsafe false true false [] ["doc_0000"]
      (Or.inl rfl)⟩

/-- Insert-or-replace on an insertion-ordered association list, the model
of one Python dict assignment `doc_id_to_hash[k] = v`. -/
def dictInsert (m : List (String × String)) (k v : String) :
    List (String × String) :=
  if m.any (fun p => p.1 == k) then
    m.map (fun p => if p.1 == k then (k, v) else p)
  else m ++ [(k, v)]

/-- Lookup in the association-list model of a Python dict: the value of
the first (and, by the `dictInsert` invariant, only) entry with the key. -/
def dictFind : List (String × String) → String → Option String
  | [], _ => none
  | p :: m, k => if p.1 == k then some p.2 else dictFind m k

/-- The `doc_id → metadata.text_hash` dict built by
`validate_embeddings_integrity` from the hits of its filtered scroll. -/
def buildHashDict (hits : List EmbDoc) : List (String × String) :=
  hits.foldl (fun m d => dictInsert m d.doc_id d.text_hash) []

/-- `validate_embeddings_integrity`: scroll the stored hashes of the
requested ids, then for each position compare the recomputed digest of the
paired expected text against the stored one; a requested id whose record
was not returned by the scan is invalid.  `H` is the MD5 hex digest
`_generate_text_hash`.  When `expected_texts` is shorter than `doc_ids`,
the loop's `expected_texts[i]` raises `IndexError` which the broad
`except` turns into `(False, doc_ids)`.  Not connected, or any error
during the scroll, also return `(False, doc_ids)`. -/
def validate_embeddings_integrity (H : String → String)
    (connected scanFails : Bool) (store : List EmbDoc)
    (doc_ids expected_texts : List String) : Bool × List String :=
  if !connected then (false, doc_ids)
  else if scanFails then (false, doc_ids)
  else if expected_texts.length < doc_ids.length then (false, doc_ids)
  else
    let dict := buildHashDict
      (scrollScan 1000 (store.filter (fun d => doc_ids.contains d.doc_id)))
    let invalid_ids := ((doc_ids.zip expected_texts).filter (fun p =>
        match dictFind dict p.1 with
        | some stored => !(H p.2 == stored)
        | none => true)).map (fun p => p.1)
    (invalid_ids.isEmpty, invalid_ids)

/-- Upsert of one bulk item: Elasticsearch indexes the document under
`_id = doc_id`, replacing any record with that id, else appending. -/
def upsert (store : List EmbDoc) (w : EmbDoc) : List EmbDoc :=
  if store.any (fun d => d.doc_id == w.doc_id) then
    store.map (fun d => if d.doc_id == w.doc_id then w else d)
  else store ++ [w]

/-- A whole bulk request: items applied in order. -/
def bulkUpsert (store : List EmbDoc) (docs : List EmbDoc) : List EmbDoc :=
  docs.foldl upsert store

/-- Whether the store holds a record with the given id. -/
def containsId (store : List EmbDoc) (i : String) : Bool :=
  store.any (fun d => d.doc_id == i)

/-- One bulk item built by the write loop of `save_embeddings` for the
id at loop position `k`: `idx = doc_ids.index(doc_id)` (first occurrence),
the text hash is recomputed from `texts[idx]`, and an all-zero
`embeddings[idx]` is replaced by the `k`-th random perturbation
(`np.random.normal(0, 0.01, shape)`), modelled by the draw stream `rng`. -/
def mkEmbDoc (H : String → String) (rng : Nat → List ℚ)
    (embeddings : List (List ℚ)) (doc_ids texts : List String)
    (model_type model_version current_time : String) (k : Nat)
    (i : String) : EmbDoc :=
  let idx := doc_ids.indexOf i
  let embedding_vector := embeddings.getD idx []
  { doc_id := i
    embedding :=
      if normSq embedding_vector = 0 then rng k else embedding_vector
    model_type := model_type
    model_version := model_version
    generated_at := current_time
    dimensions := (embeddings.headD []).length
    text_hash := H (texts.getD idx "") }

/-- The `bulk_data` list of `save_embeddings`, one item per id to write,
with the perturbation stream consumed in loop order starting at `k`. -/
def mkBulkDocs (H : String → String) (rng : Nat → List ℚ)
    (embeddings : List (List ℚ)) (doc_ids texts : List String)
    (model_type model_version current_time : String) :
    Nat → List String → List EmbDoc
  | _, [] => []
  | k, i :: rest =>
    mkEmbDoc H rng embeddings doc_ids texts model_type model_version
        current_time k i ::
      mkBulkDocs H rng embeddings doc_ids texts model_type model_version
        current_time (k + 1) rest

/-- The set of ids `save_embeddings` will write: the ids the existence
check reported missing, extended — when some ids were present — by the
ids the integrity validation flagged invalid (the expected text of a
present id is `texts[doc_ids.index(doc_id)]`). -/
def syncWriteSet (H : String → String) (store : List EmbDoc)
    (doc_ids texts : List String) : List String :=
  let r := check_embeddings_exist true true false store doc_ids
  let existing_ids := r.2.1
  let missing_ids := r.2.2
  if !existing_ids.isEmpty then
    let v := validate_embeddings_integrity H true false store existing_ids
      (existing_ids.map (fun i => texts.getD (doc_ids.indexOf i) ""))
    if !v.1 then missing_ids ++ v.2 else missing_ids
  else missing_ids

/-- Result of one `save_embeddings` call: the returned boolean, the number
of documents bulk-written (`success_count`, 0 when the bulk-write path is
not taken), and the collection contents afterwards. -/
structure SaveResult where
  ok : Bool
  written : Nat
  store : List EmbDoc
deriving DecidableEq

/-- `save_embeddings` on the nominal backend (connection checked, index
ensured by `create_index`, no scroll or bulk item failures): check which
ids exist; if all exist return immediately; otherwise extend the missing
set with the integrity failures among the present ids; if nothing is left
to write return immediately; otherwise bulk-write one freshly stamped
document per remaining id. -/
def save_embeddings (H : String → String) (rng : Nat → List ℚ)
    (connected : Bool) (store : List EmbDoc) (embeddings : List (List ℚ))
    (doc_ids texts : List String)
    (model_type model_version current_time : String) : SaveResult :=
  if !connected then ⟨false, 0, store⟩
  else if (check_embeddings_exist true true false store doc_ids).1 then
    ⟨true, 0, store⟩
  else
    let missing_ids := syncWriteSet H store doc_ids texts
    if missing_ids.isEmpty then ⟨true, 0, store⟩
    else
      let bulk_data := mkBulkDocs H rng embeddings doc_ids texts model_type
        model_version current_time 0 missing_ids
      ⟨!bulk_data.isEmpty, bulk_data.length, bulkUpsert store bulk_data⟩

theorem containsId_iff {store : List EmbDoc} {i : String} :
    containsId store i = true ↔ ∃ d ∈ store, d.doc_id = i := by
  unfold containsId
  simp [List.any_eq_true]

theorem mem_upsert {store : List EmbDoc} {w d : EmbDoc}
    (hd : d ∈ upsert store w) :
    d = w ∨ (d ∈ store ∧ d.doc_id ≠ w.doc_id) := by
  unfold upsert at hd
  by_cases hany : store.any (fun e => e.doc_id == w.doc_id)
  · rw [if_pos hany] at hd
    obtain ⟨e, he, heq⟩ := List.mem_map.mp hd
    by_cases hid : e.doc_id == w.doc_id
    · rw [if_pos hid] at heq
      exact Or.inl heq.symm
    · rw [if_neg hid] at heq
      refine Or.inr ⟨heq ▸ he, ?_⟩
      rw [← heq]
      simpa using hid
  · rw [if_neg hany] at hd
    rcases List.mem_append.mp hd with hmem | hmem
    · refine Or.inr ⟨hmem, ?_⟩
      simp only [List.any_eq_true, not_exists, not_and] at hany
      have := hany d hmem
      simpa using this
    · exact Or.inl (List.mem_singleton.mp hmem)

theorem containsId_upsert_of {store : List EmbDoc} {w : EmbDoc} {i : String}
    (h : containsId store i = true) :
    containsId (upsert store w) i = true := by
  obtain ⟨e, he, hei⟩ := containsId_iff.mp h
  unfold upsert
  by_cases hany : store.any (fun d => d.doc_id == w.doc_id)
  · rw [if_pos hany]
    by_cases hid : e.doc_id == w.doc_id
    · refine containsId_iff.mpr ⟨w, List.mem_map.mpr ⟨e, he, if_pos hid⟩, ?_⟩
      have : e.doc_id = w.doc_id := by simpa using hid
      rw [← this, hei]
    · exact containsId_iff.mpr ⟨e, List.mem_map.mpr ⟨e, he, if_neg hid⟩, hei⟩
  · rw [if_neg hany]
    exact containsId_iff.mpr ⟨e, List.mem_append_left _ he, hei⟩

theorem containsId_upsert_id {store : List EmbDoc} {w : EmbDoc} {i : String}
    (h : w.doc_id = i) : containsId (upsert store w) i = true := by
  unfold upsert
  by_cases hany : store.any (fun d => d.doc_id == w.doc_id)
  · rw [if_pos hany]
    obtain ⟨e, he, hei⟩ := List.any_eq_true.mp hany
    exact containsId_iff.mpr ⟨w, List.mem_map.mpr ⟨e, he, if_pos hei⟩, h⟩
  · rw [if_neg hany]
    exact containsId_iff.mpr
      ⟨w, List.mem_append_right _ (List.mem_singleton.mpr rfl), h⟩

theorem bulkUpsert_cons (store : List EmbDoc) (v : EmbDoc)
    (rest : List EmbDoc) :
    bulkUpsert store (v :: rest) = bulkUpsert (upsert store v) rest :=
  rfl

theorem containsId_bulkUpsert_of {docs : List EmbDoc} :
    ∀ {store : List EmbDoc} {i : String}, containsId store i = true →
      containsId (bulkUpsert store docs) i = true := by
  induction docs with
  | nil => intro store i h; exact h
  | cons w rest ih =>
    intro store i h
    exact ih (containsId_upsert_of h)

theorem containsId_bulkUpsert_mem {docs : List EmbDoc} :
    ∀ {store : List EmbDoc} {i : String},
      (∃ w ∈ docs, w.doc_id = i) →
      containsId (bulkUpsert store docs) i = true := by
  induction docs with
  | nil => rintro store i ⟨w, hw, _⟩; exact absurd hw (List.not_mem_nil w)
  | cons v rest ih =>
    rintro store i ⟨w, hw, hwi⟩
    rw [bulkUpsert_cons]
    rcases List.mem_cons.mp hw with hw | hw
    · exact containsId_bulkUpsert_of (containsId_upsert_id (hw ▸ hwi))
    · exact ih ⟨w, hw, hwi⟩

theorem mem_bulkUpsert {docs : List EmbDoc} :
    ∀ {store : List EmbDoc} {d : EmbDoc}, d ∈ bulkUpsert store docs →
      d ∈ docs ∨ (d ∈ store ∧ ∀ w ∈ docs, d.doc_id ≠ w.doc_id) := by
  induction docs with
  | nil => intro store d h; exact Or.inr ⟨h, by simp⟩
  | cons v rest ih =>
    intro store d h
    rcases ih h with hmem | ⟨hmem, hne⟩
    · exact Or.inl (List.mem_cons_of_mem v hmem)
    · rcases mem_upsert hmem with heq | ⟨hin, hne2⟩
      · exact Or.inl (heq ▸ List.mem_cons_self v rest)
      · refine Or.inr ⟨hin, ?_⟩
        intro w hw
        rcases List.mem_cons.mp hw with hw | hw
        · exact hw ▸ hne2
        · exact hne w hw

theorem mkBulkDocs_map_doc_id (H : String → String) (rng : Nat → List ℚ)
    (embeddings : List (List ℚ)) (doc_ids texts : List String)
    (mt mv ts : String) :
    ∀ (k : Nat) (ids : List String),
      (mkBulkDocs H rng embeddings doc_ids texts mt mv ts k ids).map
          (fun d => d.doc_id) = ids := by
  intro k ids
  induction ids generalizing k with
  | nil => rfl
  | cons i rest ih =>
    simp only [mkBulkDocs, List.map_cons, ih]
    rfl

theorem mem_mkBulkDocs {H : String → String} {rng : Nat → List ℚ}
    {embeddings : List (List ℚ)} {doc_ids texts : List String}
    {mt mv ts : String} :
    ∀ {k : Nat} {ids : List String} {d : EmbDoc},
      d ∈ mkBulkDocs H rng embeddings doc_ids texts mt mv ts k ids →
      ∃ k' i, i ∈ ids ∧
        d = mkEmbDoc H rng embeddings doc_ids texts mt mv ts k' i := by
  intro k ids
  induction ids generalizing k with
  | nil => intro d h; exact absurd h (List.not_mem_nil d)
  | cons i rest ih =>
    intro d h
    rcases List.mem_cons.mp h with heq | hmem
    · exact ⟨k, i, List.mem_cons_self i rest, heq⟩
    · obtain ⟨k', i', hi', hd⟩ := ih hmem
      exact ⟨k', i', List.mem_cons_of_mem i hi', hd⟩

theorem check_success_eq (store : List EmbDoc) (doc_ids : List String) :
    check_embeddings_exist true true false store doc_ids =
      ((doc_ids.filter
          (fun i => !(scanYield store doc_ids).contains i)).isEmpty,
        scanYield store doc_ids,
        doc_ids.filter (fun i => !(scanYield store doc_ids).contains i)) := by
  rfl

theorem check_all_exist_iff (store : List EmbDoc) (doc_ids : List String) :
    (check_embeddings_exist true true false store doc_ids).1 = true ↔
      ∀ i ∈ doc_ids, containsId store i = true := by
  rw [check_success_eq]
  simp only [List.isEmpty_iff, List.filter_eq_nil_iff]
  constructor
  · intro h i hi
    have := h i hi
    simp only [Bool.not_eq_true', Bool.not_eq_false] at this
    obtain ⟨_, d, hd, hdi⟩ :=
      (mem_scanYield store doc_ids i).mp (contains_true_iff.mp this)
    exact containsId_iff.mpr ⟨d, hd, hdi⟩
  · intro h i hi
    obtain ⟨d, hd, hdi⟩ := containsId_iff.mp (h i hi)
    simp only [Bool.not_eq_true', Bool.not_eq_false]
    exact contains_true_iff.mpr
      ((mem_scanYield store doc_ids i).mpr ⟨hi, d, hd, hdi⟩)

theorem mem_check_missing {store : List EmbDoc} {doc_ids : List String}
    {i : String} (hi : i ∈ doc_ids)
    (h : ¬ i ∈ (check_embeddings_exist true true false store doc_ids).2.2) :
    i ∈ scanYield store doc_ids := by
  rw [check_success_eq] at h
  simp only [List.mem_filter, hi, true_and, Bool.not_eq_true',
    Bool.not_eq_false] at h
  exact contains_true_iff.mp h

theorem missing_subset_syncWriteSet (H : String → String)
    (store : List EmbDoc) (doc_ids texts : List String) (i : String)
    (h : i ∈ (check_embeddings_exist true true false store doc_ids).2.2) :
    i ∈ syncWriteSet H store doc_ids texts := by
  unfold syncWriteSet
  by_cases he :
      (check_embeddings_exist true true false store doc_ids).2.1.isEmpty
  · simp only [he, Bool.not_true, Bool.false_eq_true, if_false]
    exact h
  · simp only [he, Bool.not_false, if_true]
    by_cases hv : (validate_embeddings_integrity H true false store
        (check_embeddings_exist true true false store doc_ids).2.1
        ((check_embeddings_exist true true false store doc_ids).2.1.map
          (fun j => texts.getD (doc_ids.indexOf j) ""))).1
    · simp only [hv, Bool.not_true, Bool.false_eq_true, if_false]
      exact h
    · simp only [Bool.not_eq_true] at hv
      simp only [hv, Bool.not_false, if_true]
      exact List.mem_append_left _ h

theorem syncWriteSet_empty_missing {H : String → String}
    {store : List EmbDoc} {doc_ids texts : List String}
    (h : (syncWriteSet H store doc_ids texts).isEmpty = true) :
    (check_embeddings_exist true true false store doc_ids).2.2 = [] := by
  by_contra hne
  obtain ⟨i, hi⟩ := List.exists_mem_of_ne_nil _ hne
  have := missing_subset_syncWriteSet H store doc_ids texts i hi
  rw [List.isEmpty_iff.mp h] at this
  exact List.not_mem_nil i this

theorem save_makes_present (H : String → String) (rng : Nat → List ℚ)
    (store : List EmbDoc) (embeddings : List (List ℚ))
    (doc_ids texts : List String) (mt mv ts : String) :
    ∀ i ∈ doc_ids,
      containsId (save_embeddings H rng true store embeddings doc_ids texts
          mt mv ts).store i = true := by
  intro i hi
  unfold save_embeddings
  simp only [Bool.not_true, Bool.false_eq_true, if_false]
  by_cases hch : (check_embeddings_exist true true false store doc_ids).1
  · rw [if_pos hch]
    exact (check_all_exist_iff store doc_ids).mp hch i hi
  · rw [if_neg hch]
    by_cases hm : (syncWriteSet H store doc_ids texts).isEmpty
    · exfalso
      have hmiss := syncWriteSet_empty_missing hm
      apply hch
      rw [check_success_eq]
      rw [check_success_eq] at hmiss
      simpa [List.isEmpty_iff] using hmiss
    · simp only [hm, Bool.false_eq_true, if_false]
      by_cases hmem :
          i ∈ (check_embeddings_exist true true false store doc_ids).2.2
      · refine containsId_bulkUpsert_mem ?_
        have hw := missing_subset_syncWriteSet H store doc_ids texts i hmem
        have hmap := mkBulkDocs_map_doc_id H rng embeddings doc_ids texts
          mt mv ts 0 (syncWriteSet H store doc_ids texts)
        obtain ⟨d, hd, hdi⟩ := by
          rw [← hmap] at hw
          exact List.mem_map.mp hw
        exact ⟨d, hd, hdi⟩
      · have hy := mem_check_missing hi hmem
        obtain ⟨_, d, hd, hdi⟩ := (mem_scanYield store doc_ids i).mp hy
        exact containsId_bulkUpsert_of (containsId_iff.mpr ⟨d, hd, hdi⟩)

/-- C3: sync is idempotent. After one successful `save_embeddings` call
for a batch, an immediately repeated call with the same batch (whatever
fresh timestamp and perturbation stream it draws) takes the all-exist
early return: it reports success, bulk-writes nothing (`written = 0`), and
leaves the collection contents — in particular the document count —
unchanged. -/
theorem sync_idempotent (H : String → String) (rng1 rng2 : Nat → List ℚ)
    (store : List EmbDoc) (embeddings : List (List ℚ))
    (doc_ids texts : List String) (mt mv ts1 ts2 : String) :
    (save_embeddings H rng2 true
        (save_embeddings H rng1 true store embeddings doc_ids texts mt mv
          ts1).store
        embeddings doc_ids texts mt mv ts2).ok = true ∧
    (save_embeddings H rng2 true
        (save_embeddings H rng1 true store embeddings doc_ids texts mt mv
          ts1).store
        embeddings doc_ids texts mt mv ts2).written = 0 ∧
    (save_embeddings H rng2 true
        (save_embeddings H rng1 true store embeddings doc_ids texts mt mv
          ts1).store
        embeddings doc_ids texts mt mv ts2).store =
      (save_embeddings H rng1 true store embeddings doc_ids texts mt mv
        ts1).store := by
  have hch : (check_embeddings_exist true true false
      (save_embeddings H rng1 true store embeddings doc_ids texts mt mv
        ts1).store doc_ids).1 = true := by
    rw [check_all_exist_iff]
    exact save_makes_present H rng1 store embeddings doc_ids texts mt mv ts1
  generalize hs : (save_embeddings H rng1 true store embeddings doc_ids
    texts mt mv ts1).store = S at hch ⊢
  have heq : save_embeddings H rng2 true S embeddings doc_ids texts mt mv
      ts2 = ⟨true, 0, S⟩ := by
    simp [save_embeddings, hch]
  rw [heq]
  exact ⟨rfl, rfl, rfl⟩

theorem mkEmbDoc_doc_id (H : String → String) (rng : Nat → List ℚ)
    (embeddings : List (List ℚ)) (doc_ids texts : List String)
    (mt mv ts : String) (k : Nat) (i : String) :
    (mkEmbDoc H rng embeddings doc_ids texts mt mv ts k i).doc_id = i :=
  rfl

/-- C8: an all-zero vector in the write set is never stored as such. When
`save_embeddings` takes the bulk-write path and the id's selected input
vector `embeddings[doc_ids.index(id)]` has zero norm, the stored vector is
the random perturbation drawn for that bulk item, so — the perturbation
draws being nonzero — every record stored under that id after the call has
non-zero norm, and a record for that id does exist. -/
theorem zero_vector_never_stored (H : String → String) (rng : Nat → List ℚ)
    (store : List EmbDoc) (embeddings : List (List ℚ))
    (doc_ids texts : List String) (mt mv ts : String) (i : String)
    (hchk : (check_embeddings_exist true true false store doc_ids).1 = false)
    (hwrite : i ∈ syncWriteSet H store doc_ids texts)
    (hzero : normSq (embeddings.getD (doc_ids.indexOf i) []) = 0)
    (hrng : ∀ k, normSq (rng k) ≠ 0) :
    (∃ d ∈ (save_embeddings H rng true store embeddings doc_ids texts mt mv
        ts).store, d.doc_id = i) ∧
    (∀ d ∈ (save_embeddings H rng true store embeddings doc_ids texts mt mv
        ts).store, d.doc_id = i → normSq d.embedding ≠ 0) := by
  have hne : (syncWriteSet H store doc_ids texts).isEmpty = false := by
    cases hb : (syncWriteSet H store doc_ids texts).isEmpty
    · rfl
    · rw [List.isEmpty_iff.mp hb] at hwrite
      exact absurd hwrite (List.not_mem_nil i)
  have hstore : (save_embeddings H rng true store embeddings doc_ids texts
      mt mv ts).store =
      bulkUpsert store (mkBulkDocs H rng embeddings doc_ids texts mt mv ts 0
        (syncWriteSet H store doc_ids texts)) := by
    simp [save_embeddings, hchk, hne]
  rw [hstore]
  have hdocmem : ∃ d ∈ mkBulkDocs H rng embeddings doc_ids texts mt mv ts 0
      (syncWriteSet H store doc_ids texts), d.doc_id = i := by
    have hmap := mkBulkDocs_map_doc_id H rng embeddings doc_ids texts
      mt mv ts 0 (syncWriteSet H store doc_ids texts)
    rw [← hmap] at hwrite
    exact List.mem_map.mp hwrite
  constructor
  · exact containsId_iff.mp (containsId_bulkUpsert_mem hdocmem)
  · intro d hd hdi
    rcases mem_bulkUpsert hd with hmem | ⟨_, hnone⟩
    · obtain ⟨k', i', hi', hdef⟩ := mem_mkBulkDocs hmem
      have hii : i' = i := by rw [hdef] at hdi; exact hdi
      rw [hdef, hii]
      unfold mkEmbDoc
      simp only [hzero, if_pos]
      exact hrng k'
    · exfalso
      obtain ⟨w, hw, hwi⟩ := hdocmem
      exact hnone w hw (by rw [hdi, hwi])

theorem zero_vector_never_stored_witness :
    normSq [(1 : ℚ)] ≠ 0 ∧
    ((∃ d ∈ (save_embeddings (fun s => s) (fun _ => [(1 : ℚ)]) true []
        [[0, 0]] ["doc_0000"] ["t"] "tfidf" "1.0" "now").store,
        d.doc_id = "doc_0000") ∧
      (∀ d ∈ (save_embeddings (fun s => s) (fun _ => [(1 : ℚ)]) true []
          [[0, 0]] ["doc_0000"] ["t"] "tfidf" "1.0" "now").store,
          d.doc_id = "doc_0000" → normSq d.embedding ≠ 0)) :=
  ⟨by norm_num [normSq],
    zero_vector_never_stored (fun s => s) (fun _ => [(1 : ℚ)]) []
      [[0, 0]] ["doc_0000"] ["t"] "tfidf" "1.0" "now" "doc_0000"
      (by simp [check_embeddings_exist, scanYield, scrollScan_nil])
      (by simp [syncWriteSet, check_embeddings_exist, scanYield,
        scrollScan_nil])
      (by norm_num [normSq])
      (fun _ => by norm_num [normSq])⟩
theorem dictFind_map_replace_ne {k w x : String} (hx : x ≠ k) :
    ∀ m : List (String × String),
      dictFind (m.map (fun p => if p.1 == k then (k, w) else p)) x =
        dictFind m x := by
  intro m
  induction m with
  | nil => rfl
  | cons p m ih =>
    by_cases hp : (p.1 == k) = true
    · have hpk : p.1 = k := by simpa using hp
      have h1 : ((k : String) == x) = false := by simp [Ne.symm hx]
      simpa [dictFind, hpk, h1] using ih
    · have hp' : (p.1 == k) = false := by simpa using hp
      cases hpx : (p.1 == x)
      · simpa [dictFind, hp', hpx] using ih
      · simp [dictFind, hp', hpx]

theorem dictFind_map_replace_self {k w : String} :
    ∀ m : List (String × String),
      m.any (fun p => p.1 == k) = true →
      dictFind (m.map (fun p => if p.1 == k then (k, w) else p)) k =
        some w := by
  intro m
  induction m with
  | nil => intro h; simp at h
  | cons p m ih =>
    intro h
    by_cases hp : (p.1 == k) = true
    · have hpk : p.1 = k := by simpa using hp
      simp [dictFind, hpk]
    · have hp' : (p.1 == k) = false := by simpa using hp
      have hany : m.any (fun p => p.1 == k) = true := by
        simpa [List.any_cons, hp'] using h
      simpa [dictFind, hp'] using ih hany

theorem dictFind_append_single_self {k w : String} :
    ∀ m : List (String × String),
      m.any (fun p => p.1 == k) = false →
      dictFind (m ++ [(k, w)]) k = some w := by
  intro m
  induction m with
  | nil => intro _; simp [dictFind]
  | cons p m ih =>
    intro h
    have hp : (p.1 == k) = false := by
      cases hpb : (p.1 == k)
      · rfl
      · rw [List.any_cons, hpb, Bool.true_or] at h
        simp at h
    have hany : m.any (fun p => p.1 == k) = false := by
      rw [List.any_cons, hp, Bool.false_or] at h
      exact h
    simpa [dictFind, hp] using ih hany

theorem dictFind_append_single_ne {k w x : String} (hx : x ≠ k) :
    ∀ m : List (String × String),
      dictFind (m ++ [(k, w)]) x = dictFind m x := by
  intro m
  induction m with
  | nil =>
    simp [dictFind, Ne.symm hx]
  | cons p m ih =>
    cases hpx : (p.1 == x)
    · simpa [dictFind, hpx] using ih
    · simp [dictFind, hpx]

theorem dictFind_insert_self (m : List (String × String)) (k w : String) :
    dictFind (dictInsert m k w) k = some w := by
  unfold dictInsert
  by_cases hany : m.any (fun p => p.1 == k) = true
  · rw [if_pos hany]
    exact dictFind_map_replace_self m hany
  · rw [if_neg hany]
    exact dictFind_append_single_self m (Bool.eq_false_iff.mpr hany)

theorem dictFind_insert_ne (m : List (String × String)) (k w x : String)
    (hx : x ≠ k) :
    dictFind (dictInsert m k w) x = dictFind m x := by
  unfold dictInsert
  by_cases hany : m.any (fun p => p.1 == k) = true
  · rw [if_pos hany]
    exact dictFind_map_replace_ne hx m
  · rw [if_neg hany]
    exact dictFind_append_single_ne hx m

theorem buildHashDict_find_sound :
    ∀ (hits : List EmbDoc) (m : List (String × String)) (x v : String),
      dictFind (hits.foldl (fun m d => dictInsert m d.doc_id d.text_hash) m)
          x = some v →
      dictFind m x = some v ∨ ∃ d ∈ hits, d.doc_id = x ∧ d.text_hash = v := by
  intro hits
  induction hits with
  | nil => intro m x v h; exact Or.inl h
  | cons d hits ih =>
    intro m x v h
    rcases ih (dictInsert m d.doc_id d.text_hash) x v h with h' | ⟨e, he, hex⟩
    · by_cases hx : x = d.doc_id
      · rw [hx, dictFind_insert_self] at h'
        exact Or.inr ⟨d, List.mem_cons_self d hits, hx.symm,
          Option.some.inj h'⟩
      · rw [dictFind_insert_ne m d.doc_id d.text_hash x hx] at h'
        exact Or.inl h'
    · exact Or.inr ⟨e, List.mem_cons_of_mem d he, hex⟩

theorem buildHashDict_find_defined :
    ∀ (hits : List EmbDoc) (m : List (String × String)) (x : String),
      ((∃ d ∈ hits, d.doc_id = x) ∨ ∃ v, dictFind m x = some v) →
      ∃ v, dictFind
        (hits.foldl (fun m d => dictInsert m d.doc_id d.text_hash) m) x =
          some v := by
  intro hits
  induction hits with
  | nil =>
    intro m x h
    rcases h with ⟨d, hd, _⟩ | h
    · exact absurd hd (List.not_mem_nil d)
    · exact h
  | cons d hits ih =>
    intro m x h
    by_cases hx : x = d.doc_id
    · refine ih (dictInsert m d.doc_id d.text_hash) x (Or.inr ?_)
      exact ⟨d.text_hash, by rw [hx, dictFind_insert_self]⟩
    · rcases h with ⟨e, he, hex⟩ | ⟨v, hv⟩
      · rcases List.mem_cons.mp he with he' | he'
        · exact absurd (he' ▸ hex) (fun hh => hx hh.symm)
        · exact ih _ x (Or.inl ⟨e, he', hex⟩)
      · refine ih _ x (Or.inr ⟨v, ?_⟩)
        rw [dictFind_insert_ne m d.doc_id d.text_hash x hx]
        exact hv

theorem dictFind_buildHashDict_none {hits : List EmbDoc} {x : String}
    (h : ∀ d ∈ hits, d.doc_id ≠ x) :
    dictFind (buildHashDict hits) x = none := by
  cases hfind : dictFind (buildHashDict hits) x with
  | none => rfl
  | some v =>
    rcases buildHashDict_find_sound hits [] x v hfind with h' | ⟨d, hd, hdx, _⟩
    · exact absurd h' (by simp [dictFind])
    · exact absurd hdx (h d hd)

theorem validate_eq_pairs (H : String → String) (store : List EmbDoc)
    (doc_ids texts : List String)
    (hlen : ¬ texts.length < doc_ids.length) :
    (validate_embeddings_integrity H true false store doc_ids texts).2 =
      ((doc_ids.zip texts).filter (fun p =>
        match dictFind (buildHashDict
            (store.filter (fun d => doc_ids.contains d.doc_id))) p.1 with
        | some stored => !(H p.2 == stored)
        | none => true)).map (fun p => p.1) := by
  simp only [validate_embeddings_integrity, Bool.not_true, Bool.false_eq_true,
    if_false, if_neg hlen]
  rw [scrollScan_eq_self 1000 (by norm_num)]

/-- C4: integrity detection. If every record stored under an id carries the
fingerprint of text `T` (with the digest collision-free, the idealisation
of MD5 this model uses), then validating that id against any `T' ≠ T`
reports it invalid, while validating it against the original `T` reports
no invalid ids. -/
theorem integrity_detection (H : String → String) (store : List EmbDoc)
    (i T T' : String) (hinj : Function.Injective H) (hne : T' ≠ T)
    (hstored : ∃ d ∈ store, d.doc_id = i)
    (hstamp : ∀ d ∈ store, d.doc_id = i → d.text_hash = H T) :
    i ∈ (validate_embeddings_integrity H true false store [i] [T']).2 ∧
      (validate_embeddings_integrity H true false store [i] [T]).2 = [] := by
  have hhit : ∃ d ∈ store.filter
      (fun d => ([i] : List String).contains d.doc_id), d.doc_id = i := by
    obtain ⟨d, hd, hdi⟩ := hstored
    refine ⟨d, List.mem_filter.mpr ⟨hd, ?_⟩, hdi⟩
    rw [contains_true_iff]
    simp [hdi]
  obtain ⟨v, hv⟩ := buildHashDict_find_defined
    (store.filter (fun d => ([i] : List String).contains d.doc_id)) [] i
    (Or.inl hhit)
  have hvT : v = H T := by
    rcases buildHashDict_find_sound _ [] i v hv with h' | ⟨d, hd, hdi, hdh⟩
    · simp [dictFind] at h'
    · rw [← hdh]
      exact hstamp d (List.mem_filter.mp hd).1 hdi
  subst hvT
  have hb : (H T' == H T) = false := by
    rw [beq_eq_false_iff_ne]
    exact fun hh => hne (hinj hh)
  constructor
  · rw [validate_eq_pairs H store [i] [T'] (by simp)]
    simp [buildHashDict] at hv
    simp [hv, hb, buildHashDict]
  · rw [validate_eq_pairs H store [i] [T] (by simp)]
    simp [buildHashDict] at hv
    simp [hv, buildHashDict]

theorem integrity_detection_witness :
    ("b" : String) ≠ "a" ∧
      ("doc_0000" ∈ (validate_embeddings_integrity (fun s => s) true false
          [⟨"doc_0000", [1], "test", "1.0", "now", 1, "a"⟩]
          ["doc_0000"] ["b"]).2 ∧
        (validate_embeddings_integrity (fun s => s) true false
          [⟨"doc_0000", [1], "test", "1.0", "now", 1, "a"⟩]
          ["doc_0000"] ["a"]).2 = []) :=
  ⟨by decide,
    integrity_detection (fun s => s)
      [⟨"doc_0000", [1], "test", "1.0", "now", 1, "a"⟩]
      "doc_0000" "a" "b" (fun _ _ hh => hh) (by decide)
      (by decide) (by decide)⟩

/-- C5: absence is an integrity failure. A requested id for which the scan
returns no stored record is always reported in the invalid set by
`validate_embeddings_integrity` — never silently skipped. -/
theorem absence_is_invalid (H : String → String) (store : List EmbDoc)
    (doc_ids texts : List String) (i : String)
    (hmem : i ∈ doc_ids) (habsent : ∀ d ∈ store, d.doc_id ≠ i) :
    i ∈ (validate_embeddings_integrity H true false store doc_ids texts).2 := by
  by_cases hlen : texts.length < doc_ids.length
  · simp only [validate_embeddings_integrity, Bool.not_true,
      Bool.false_eq_true, if_false, if_pos hlen]
    exact hmem
  · rw [validate_eq_pairs H store doc_ids texts hlen]
    have hfind : dictFind (buildHashDict
        (store.filter (fun d => doc_ids.contains d.doc_id))) i = none :=
      dictFind_buildHashDict_none
        (fun d hd => habsent d (List.mem_filter.mp hd).1)
    have hlen' : doc_ids.length ≤ texts.length := Nat.le_of_not_lt hlen
    obtain ⟨n, hget⟩ := List.mem_iff_get.mp hmem
    have hzlen : (n : Nat) < (doc_ids.zip texts).length := by
      rw [List.length_zip]
      exact Nat.lt_min.mpr ⟨n.isLt, Nat.lt_of_lt_of_le n.isLt hlen'⟩
    have hpair : (doc_ids.zip texts).get ⟨(n : Nat), hzlen⟩ =
        (i, texts.get ⟨(n : Nat), Nat.lt_of_lt_of_le n.isLt hlen'⟩) := by
      rw [List.get_eq_getElem, List.getElem_zip]
      rw [List.get_eq_getElem] at hget
      simp [hget]
    refine List.mem_map.mpr ⟨(i, texts.get ⟨(n : Nat),
      Nat.lt_of_lt_of_le n.isLt hlen'⟩), List.mem_filter.mpr ⟨?_, ?_⟩, rfl⟩
    · rw [← hpair]
      exact List.get_mem _ _ _
    · simp only [hfind]

theorem absence_is_invalid_witness :
    "doc_0000" ∈ (["doc_0000"] : List String) ∧
      "doc_0000" ∈ (validate_embeddings_integrity (fun s => s) true false []
        ["doc_0000"] ["x"]).2 :=
  ⟨by decide,
    absence_is_invalid (fun s => s) [] ["doc_0000"] ["x"] "doc_0000"
      (by decide) (by decide)⟩

/-- What the backend reports for one configured index while
`get_cache_status` runs: the result of the existence check
(`_check_index_exists` already swallows its own errors into `False`), and
the outcomes of the `count` and `indices.stats` calls, each either a value
or a raised error. -/
structure IndexProbe where
  existsOk : Bool
  countResult : Except String Nat
  statsResult : Except String Nat

/-- One per-index entry of the status report
(`{"exists": ..., "doc_count": ..., "size_mb": ...}`). -/
structure IndexStatusEntry where
  indexExists : Bool
  doc_count : Nat
  size_mb : ℚ

/-- The three shapes `get_cache_status` can return: the not-connected
error dict, the full report, or the catch-all error dict
`{"connected": True, "error": ...}` produced by the single `except` that
wraps the whole per-index loop. -/
inductive CacheStatus where
  | notConnected (error : String)
  | report (indices : List (String × IndexStatusEntry)) (total_docs : Nat)
      (total_size_mb : ℚ)
  | errored (error : String)

/-- The per-index loop of `get_cache_status`, run inside one `try`: an
error raised by `count` or `indices.stats` aborts the whole loop (the
remaining indices are never visited); a failed existence check only makes
that index's entry `{exists: False, 0, 0}`.  `size_mb` is the exact
`size_in_bytes / (1024 * 1024)`; the 2-decimal presentation rounding of
the source is omitted. -/
def statusLoop :
    List (String × IndexProbe) →
      Except String (List (String × IndexStatusEntry) × Nat × ℚ)
  | [] => Except.ok ([], 0, 0)
  | (nm, p) :: rest =>
    if p.existsOk then
      match p.countResult with
      | Except.error e => Except.error e
      | Except.ok doc_count =>
        match p.statsResult with
        | Except.error e => Except.error e
        | Except.ok size_bytes =>
          match statusLoop rest with
          | Except.error e => Except.error e
          | Except.ok (entries, td, ts) =>
            Except.ok
              ((nm, ⟨true, doc_count, (size_bytes : ℚ) / (1024 * 1024)⟩)
                  :: entries,
                doc_count + td, (size_bytes : ℚ) / (1024 * 1024) + ts)
    else
      match statusLoop rest with
      | Except.error e => Except.error e
      | Except.ok (entries, td, ts) =>
        Except.ok ((nm, ⟨false, 0, 0⟩) :: entries, td, ts)

/-- `get_cache_status`: not connected yields the not-connected dict;
otherwise the whole per-index loop runs inside one `try`, so any raised
error replaces the entire report with one inline error value. -/
def get_cache_status (connected : Bool)
    (probes : List (String × IndexProbe)) : CacheStatus :=
  if !connected then CacheStatus.notConnected "Nao conectado ao Elasticsearch"
  else
    match statusLoop probes with
    | Except.error e => CacheStatus.errored ("Erro ao obter status: " ++ e)
    | Except.ok (entries, td, ts) => CacheStatus.report entries td ts

/-- C7 counterexample: with two configured indices where reading the first
one's document count raises, `get_cache_status` returns the single
catch-all error value — no per-collection report survives, so the second
(healthy) collection's entry is not reported, contradicting the claimed
per-collection fault isolation. -/
theorem status_failure_aborts_counterexample :
    get_cache_status true
        [("embeddings_tfidf",
            ⟨true, Except.error "boom", Except.ok 0⟩),
          ("embeddings_bert", ⟨true, Except.ok 5, Except.ok 1048576⟩)] =
      CacheStatus.errored "Erro ao obter status: boom" ∧
    ∀ entries td ts,
      get_cache_status true
          [("embeddings_tfidf",
              ⟨true, Except.error "boom", Except.ok 0⟩),
            ("embeddings_bert", ⟨true, Except.ok 5, Except.ok 1048576⟩)] ≠
        CacheStatus.report entries td ts := by
  refine ⟨rfl, ?_⟩
  intro entries td ts h
  rw [show get_cache_status true
      [("embeddings_tfidf", ⟨true, Except.error "boom", Except.ok 0⟩),
        ("embeddings_bert", ⟨true, Except.ok 5, Except.ok 1048576⟩)] =
      CacheStatus.errored "Erro ao obter status: boom" from rfl] at h
  exact CacheStatus.noConfusion h

/-- A probe on which the status loop cannot raise: either the existence
check already failed (reported inline as absent), or both the count and
the stats calls succeed. -/
def probeOk (p : IndexProbe) : Bool :=
  !p.existsOk || (p.countResult.isOk && p.statsResult.isOk)

theorem statusLoop_error :
    ∀ (pre : List (String × IndexProbe)) (nm e : String) (p : IndexProbe)
      (rest : List (String × IndexProbe)),
      (∀ q ∈ pre, probeOk q.2 = true) →
      p.existsOk = true →
      (p.countResult = Except.error e ∨
        ((∃ c, p.countResult = Except.ok c) ∧
          p.statsResult = Except.error e)) →
      statusLoop (pre ++ (nm, p) :: rest) = Except.error e := by
  intro pre
  induction pre with
  | nil =>
    intro nm e p rest _ hex hfail
    rcases hfail with hc | ⟨⟨c, hc⟩, hs⟩
    · simp [statusLoop, hex, hc]
    · simp [statusLoop, hex, hc, hs]
  | cons q pre ih =>
    intro nm e p rest hpre hex hfail
    obtain ⟨qn, qp⟩ := q
    have hq : probeOk qp = true :=
      hpre (qn, qp) (List.mem_cons_self _ _)
    have htail : statusLoop (pre ++ (nm, p) :: rest) = Except.error e :=
      ih nm e p rest (fun r hr => hpre r (List.mem_cons_of_mem _ hr)) hex
        hfail
    rw [List.cons_append]
    by_cases hqe : qp.existsOk = true
    · have hok : qp.countResult.isOk = true ∧ qp.statsResult.isOk = true := by
        unfold probeOk at hq
        rw [hqe] at hq
        simpa using hq
      cases hcr : qp.countResult with
      | error _ => rw [hcr] at hok; simp [Except.isOk, Except.toBool] at hok
      | ok c =>
        cases hsr : qp.statsResult with
        | error _ => rw [hsr] at hok; simp [Except.isOk, Except.toBool] at hok
        | ok b => simp [statusLoop, hqe, hcr, hsr, htail]
    · have hqe' : qp.existsOk = false := Bool.eq_false_iff.mpr hqe
      simp [statusLoop, hqe', htail]

/-- C7 amended: `get_cache_status` does not isolate count/stats failures
per collection. As soon as reading one collection's document count or
storage statistics raises (all earlier collections having been read
without raising), the whole report is replaced by the single inline error
value `{"connected": True, "error": ...}`, and no other collection's entry
is reported; only a failing existence check is isolated, as an
`{exists: False}` entry. -/
theorem status_failure_aborts_report (pre : List (String × IndexProbe))
    (nm e : String) (p : IndexProbe) (rest : List (String × IndexProbe))
    (hpre : ∀ q ∈ pre, probeOk q.2 = true)
    (hex : p.existsOk = true)
    (hfail : p.countResult = Except.error e ∨
      ((∃ c, p.countResult = Except.ok c) ∧
        p.statsResult = Except.error e)) :
    get_cache_status true (pre ++ (nm, p) :: rest) =
      CacheStatus.errored ("Erro ao obter status: " ++ e) := by
  unfold get_cache_status
  rw [statusLoop_error pre nm e p rest hpre hex hfail]
  rfl

theorem status_failure_aborts_report_witness :
    (⟨true, Except.error "boom", Except.ok 0⟩ : IndexProbe).existsOk =
        true ∧
      get_cache_status true
          ([] ++ ("embeddings_tfidf",
            (⟨true, Except.error "boom", Except.ok 0⟩ : IndexProbe)) ::
            [("embeddings_bert",
              ⟨true, Except.ok 5, Except.ok 1048576⟩)]) =
        CacheStatus.errored ("Erro ao obter status: " ++ "boom") :=
  ⟨rfl,
    status_failure_aborts_report [] "embeddings_tfidf" "boom"
      ⟨true, Except.error "boom", Except.ok 0⟩
      [("embeddings_bert", ⟨true, Except.ok 5, Except.ok 1048576⟩)]
      (fun q hq => absurd hq (List.not_mem_nil q)) rfl (Or.inl rfl)⟩

/-- Big-endian decimal digit characters of a positive number, the
recursion behind Python's `str(n)`; the first argument is fuel bounding
the recursion depth (`n` itself suffices). -/
def digitsAux : Nat → Nat → List Char
  | 0, _ => []
  | _ + 1, 0 => []
  | fuel + 1, n + 1 =>
    digitsAux fuel ((n + 1) / 10) ++ [Nat.digitChar ((n + 1) % 10)]

/-- Decimal representation of a natural number as characters
(`str(n)` in Python: `0` prints as `"0"`). -/
def decChars (n : Nat) : List Char :=
  if n = 0 then ['0'] else digitsAux n n

/-- Zero-pad on the left to width 4 — the `{index:04d}` format: widening
(never truncating) representations shorter than four characters. -/
def zfill4 (s : List Char) : List Char :=
  List.replicate (4 - s.length) '0' ++ s

/-- `_generate_doc_id`: the identifier `f"doc_{index:04d}"`. -/
def _generate_doc_id (i : Nat) : String :=
  String.mk ('d' :: 'o' :: 'c' :: '_' :: zfill4 (decChars i))

/-- Value of a decimal digit character. -/
def charVal (c : Char) : Nat :=
  c.toNat - 48

/-- Number denoted by a big-endian digit-character string; leading zeros
do not change the value. -/
def valOf (l : List Char) : Nat :=
  l.foldl (fun a c => 10 * a + charVal c) 0

theorem valOf_append_digit (l : List Char) (c : Char) :
    valOf (l ++ [c]) = 10 * valOf l + charVal c := by
  simp [valOf, List.foldl_append]

theorem charVal_digitChar : ∀ d : Nat, d < 10 →
    charVal (Nat.digitChar d) = d := by
  decide

theorem digitsAux_val : ∀ (fuel n : Nat), n ≤ fuel →
    valOf (digitsAux fuel n) = n := by
  intro fuel
  induction fuel with
  | zero =>
    intro n hn
    have : n = 0 := Nat.le_zero.mp hn
    simp [this, digitsAux, valOf]
  | succ fuel ih =>
    intro n hn
    cases n with
    | zero => simp [digitsAux, valOf]
    | succ m =>
      have hrec : (m + 1) / 10 ≤ fuel := by
        have := Nat.div_lt_self (Nat.succ_pos m) (by norm_num : 1 < 10)
        omega
      rw [digitsAux, valOf_append_digit, ih _ hrec,
        charVal_digitChar _ (Nat.mod_lt _ (by norm_num))]
      omega

theorem valOf_decChars (n : Nat) : valOf (decChars n) = n := by
  unfold decChars
  by_cases h : n = 0
  · simp [h, valOf, charVal]
  · rw [if_neg h]
    exact digitsAux_val n n (Nat.le_refl n)

theorem valOf_replicate_zero :
    ∀ (k : Nat) (l : List Char),
      valOf (List.replicate k '0' ++ l) = valOf l := by
  intro k
  induction k with
  | zero => intro l; simp
  | succ k ih =>
    intro l
    rw [List.replicate_succ, List.cons_append]
    show valOf (List.replicate k '0' ++ l) = valOf l
    exact ih l

theorem valOf_zfill4 (n : Nat) : valOf (zfill4 (decChars n)) = n := by
  unfold zfill4
  rw [valOf_replicate_zero]
  exact valOf_decChars n

/-- C9: the identifier scheme `f"doc_{index:04d}"` is injective — the
zero-padding widens short representations and never truncates long ones —
yet it is not lexicographically order-preserving once positions exceed
9999: position 2000 < 10000, but the identifier of 10000 precedes the
identifier of 2000 in lexicographic string order, so sorting by
identifier does not restore positional order. -/
theorem doc_id_injective_not_order_preserving :
    (∀ i j : Nat, _generate_doc_id i = _generate_doc_id j → i = j) ∧
      (2000 < 10000 ∧ _generate_doc_id 10000 < _generate_doc_id 2000) := by
  constructor
  · intro i j h
    have hdata : 'd' :: 'o' :: 'c' :: '_' :: zfill4 (decChars i) =
        'd' :: 'o' :: 'c' :: '_' :: zfill4 (decChars j) :=
      congrArg String.data h
    have hz : zfill4 (decChars i) = zfill4 (decChars j) := by
      simpa using hdata
    have := congrArg valOf hz
    rw [valOf_zfill4, valOf_zfill4] at this
    exact this
  · refine ⟨by norm_num, ?_⟩
    refine String.lt_iff_toList_lt.mpr ?_
    decide

theorem doc_id_injective_witness :
    _generate_doc_id 123 = _generate_doc_id 123 ∧ (123 : Nat) = 123 :=
  ⟨rfl, doc_id_injective_not_order_preserving.1 123 123 rfl⟩
